import Mathlib

/-!
Verification development for the Diagram Streaming Patch & Validation Engine
of next-ai-draw-io.

The definitions below are shallow embeddings of the TypeScript source:
  * `getCompleteOperations`, `handleDisplayChart` and the streaming
    `useEffect` of `src/components/chat-message-display.tsx`;
  * `deleteProvider` / `deleteModel` of `src/hooks/use-model-config.ts`;
  * `extractCompleteMxCells`, which lives in `lib/utils` (not part of the
    sources at hand) and is therefore modelled from the specification.

Helper functions imported from `lib/utils` (`convertToLegalXml`,
`replaceNodes`, `validateAndFixXml`, `applyDiagramOperations`, the DOM
parse check) appear in the embedding as an abstract environment
(`DisplayEnv`): the theorems below concern the control flow of the
component, which treats them as opaque calls.  Optional values model
JavaScript `undefined`; JavaScript truthiness of strings is modelled as
being different from the empty string.
-/

namespace DrawIo

/-- A raw streamed diagram operation as received from the model.  Each field
may be absent or of a non-string type, which the embedding collapses to
`none` (the source only distinguishes strings from everything else via
`typeof` checks). -/
structure RawOp where
  operation : Option String
  cell_id : Option String
  new_xml : Option String
deriving DecidableEq, Repr

/-- The filter condition of `getCompleteOperations`
(`src/components/chat-message-display.tsx`, lines 50-58): the operation tag
is one of `update`/`add`/`delete`, `cell_id` is a nonempty string, and
`new_xml` is a string unless the operation is `delete`. -/
def isCompleteOp (o : RawOp) : Bool :=
  (match o.operation with
   | some s => s == "update" || s == "add" || s == "delete"
   | none => false)
  && (match o.cell_id with
      | some c => !(c == "")
      | none => false)
  && ((match o.operation with
       | some s => s == "delete"
       | none => false)
      || o.new_xml.isSome)

/-- Embedding of `getCompleteOperations`
(`src/components/chat-message-display.tsx`, lines 46-59).  The outer
`Option` models `operations` being absent or not an array; the inner
`Option` models falsy array entries (the `op &&` check). -/
def getCompleteOperations (operations : Option (List (Option RawOp))) :
    List RawOp :=
  match operations with
  | none => []
  | some l => (l.filterMap id).filter isCompleteOp

/-- The well-formedness predicate exactly as claim C6 words it: the
operation is one of `add`/`update`/`delete`, `cell_id` is a string, and
`new_xml` is present (a string) for `add`/`update` and absent for
`delete`.  This is the specification-side predicate, written to be
compared against the source-side `isCompleteOp`. -/
def claimC6Complete (o : RawOp) : Bool :=
  (match o.operation with
   | some s => s == "update" || s == "add" || s == "delete"
   | none => false)
  && o.cell_id.isSome
  && (if o.operation == some "delete" then o.new_xml.isNone else o.new_xml.isSome)

/-- The function `getCompleteOperations` as claim C6 describes it: keep exactly the
entries that are well-formed per the claim's Operation shape. -/
def claimC6Filter (operations : Option (List (Option RawOp))) : List RawOp :=
  match operations with
  | none => []
  | some l => (l.filterMap id).filter claimC6Complete

/-- The amended well-formedness shape for claim C6, stated as a
proposition: `operation` is one of the three tags, `cell_id` is a nonempty
string, and `new_xml` is a string for `add`/`update` (unconstrained for
`delete`). -/
def AmendedComplete (o : RawOp) : Prop :=
  (o.operation = some "add" ∨ o.operation = some "update" ∨
      o.operation = some "delete")
  ∧ (∃ c, o.cell_id = some c ∧ c ≠ "")
  ∧ (o.operation = some "delete" ∨ ∃ x, o.new_xml = some x)

/-- A stored model entry of the multi-model configuration
(`lib/types/model-config`).  Only the `id` field is consulted by the delete
operations of `src/hooks/use-model-config.ts`; all remaining fields
(`modelId`, credentials, validation flags, ...) are collapsed into the
opaque `payload`. -/
structure ModelConfig where
  id : String
  payload : String
deriving DecidableEq, Repr

/-- A stored provider entry.  `deleteProvider`/`deleteModel` consult `id`
and `models`; the remaining fields (provider name, `apiKey`, `baseUrl`,
...) are collapsed into the opaque `payload`. -/
structure ProviderConfig where
  id : String
  models : List ModelConfig
  payload : String
deriving DecidableEq, Repr

/-- The multi-model configuration state.  `showUnvalidatedModels` stands in
for the configuration fields other than `providers`/`selectedModelId`.
`selectedModelId = none` models JavaScript `undefined`. -/
structure MultiModelConfig where
  providers : List ProviderConfig
  selectedModelId : Option String
  showUnvalidatedModels : Bool
deriving DecidableEq, Repr

/-- JavaScript truthiness of a `string | undefined` value: `undefined` and
the empty string are falsy. -/
def truthyStr : Option String → Bool
  | some s => !(s == "")
  | none => false

/-- Embedding of `deleteProvider` (`src/hooks/use-model-config.ts`, lines
263-280).  The `prev.selectedModelId && modelIds.includes(...)` guard uses
JavaScript truthiness, so an empty-string selected id is never cleared. -/
def deleteProvider (providerId : String) (prev : MultiModelConfig) :
    MultiModelConfig :=
  let provider := prev.providers.find? (fun p => p.id == providerId)
  let modelIds : List String :=
    (provider.map (fun p => p.models.map (fun m => m.id))).getD []
  let newSelectedId : Option String :=
    if truthyStr prev.selectedModelId = true ∧
        prev.selectedModelId.getD "" ∈ modelIds then none
    else prev.selectedModelId
  { prev with
      providers := prev.providers.filter (fun p => !(p.id == providerId)),
      selectedModelId := newSelectedId }

/-- A concrete sample configuration used to exhibit satisfiability of the
hypotheses about `deleteProvider`/`deleteModel`: provider `"p"` holds the
selected model `"m"`, and a second provider `"q"` is empty. -/
def sampleCfg : MultiModelConfig :=
  ⟨[⟨"p", [⟨"m", "pm"⟩], "P"⟩, ⟨"q", [], "Q"⟩], some "m", false⟩

/-- Embedding of `deleteModel` (`src/hooks/use-model-config.ts`, lines
323-345). -/
def deleteModel (providerId modelConfigId : String)
    (prev : MultiModelConfig) : MultiModelConfig :=
  { prev with
      providers := prev.providers.map (fun p =>
        if p.id == providerId then
          { p with models := p.models.filter (fun m => !(m.id == modelConfigId)) }
        else p),
      selectedModelId :=
        if prev.selectedModelId = some modelConfigId then none
        else prev.selectedModelId }

/-- State of the tag-balance scanner used by the fragment extractor:
current nesting `depth`, whether the scanner is inside a tag, whether the
tag has just been opened (the next character decides whether it is a
closing tag), whether the tag is a closing tag, whether the previous
character inside the tag was a slash (self-closing), the current
character position, and the end position of the last syntactically
complete top-level element seen so far. -/
structure ScanState where
  depth : Nat
  inTag : Bool
  tagStart : Bool
  isClose : Bool
  prevSlash : Bool
  pos : Nat
  lastComplete : Nat
deriving DecidableEq, Repr

/-- Initial scanner state. -/
def scanInit : ScanState := ⟨0, false, false, false, false, 0, 0⟩

/-- Modelled from the spec: one step of the Fragment Extractor's
tag-balance scan (spec §4.1) — the implementation `extractCompleteMxCells`
lives in `lib/utils`, which is not among the sources at hand.  The scanner
counts open/close/self-close tag boundaries; when the balance returns to
zero at the end of a tag, the position marks the end of a complete
top-level element. -/
def scanStep (st : ScanState) (c : Char) : ScanState :=
  if st.inTag then
    if c = '>' then
      let newDepth :=
        if st.isClose then st.depth - 1
        else if st.prevSlash then st.depth
        else st.depth + 1
      { st with
        depth := newDepth
        inTag := false
        tagStart := false
        isClose := false
        prevSlash := false
        pos := st.pos + 1
        lastComplete := if newDepth = 0 then st.pos + 1 else st.lastComplete }
    else if st.tagStart then
      { st with
        tagStart := false
        isClose := c = '/'
        prevSlash := false
        pos := st.pos + 1 }
    else
      { st with prevSlash := c = '/', pos := st.pos + 1 }
  else
    if c = '<' then
      { st with
        inTag := true
        tagStart := true
        isClose := false
        prevSlash := false
        pos := st.pos + 1 }
    else
      { st with pos := st.pos + 1 }

/-- Scan a whole character list. -/
def scanList (l : List Char) : ScanState := l.foldl scanStep scanInit

/-- Modelled from the spec: `extractCompleteMxCells` (spec §4.1, Fragment
Extractor) — the maximal leading substring consisting only of
syntactically complete, balanced elements; the empty string when no
complete element exists yet.  The implementation lives in `lib/utils`,
which is not among the sources at hand. -/
def extractCompleteMxCells (s : String) : String :=
  String.mk (s.data.take (scanList s.data).lastComplete)

/-- Result of `validateAndFixXml`: the `valid` flag and the optional
repaired document (`fixed`). -/
structure ValidationResult where
  valid : Bool
  fixed : Option String
deriving DecidableEq, Repr

/-- The helper functions of `lib/utils` used by `handleDisplayChart`, as
an abstract environment: the component treats them as opaque calls.
`parseOk` models the DOMParser check (`true` iff parsing produced no
`parsererror`); `replace` and `validate` return `Except` to model
JavaScript exceptions (caught by the `try`/`catch` of the source);
`applyOps` models `applyDiagramOperations` (its `result` field). -/
structure DisplayEnv where
  extract : String → String
  convert : String → String
  parseOk : String → Bool
  replace : String → String → Except String String
  validate : String → Except String ValidationResult
  applyOps : String → List RawOp → Except String String

/-- Observable events of one `handleDisplayChart` invocation: which helper
functions were called with which arguments, which XML was handed to
`onDisplayChart`, and which error toasts were shown. -/
inductive Ev where
  | extractCalled (s : String)
  | convertCalled (s : String)
  | replaceCalled (base frag : String)
  | validateCalled (s : String)
  | display (xml : String)
  | toastError (key : String)
deriving DecidableEq, Repr

/-- The default wrapper synthesized by `handleDisplayChart` when the
current chart XML is empty (`src/components/chat-message-display.tsx`,
lines 370-372). -/
def defaultBaseXml : String :=
  "<mxfile><diagram name=\"Page-1\" id=\"page-1\"><mxGraphModel><root><mxCell id=\"0\"/><mxCell id=\"1\" parent=\"0\"/></root></mxGraphModel></diagram></mxfile>"

/-- The part of `handleDisplayChart` shared by the streaming and final
paths (`src/components/chat-message-display.tsx`, lines 348-401), from
`convertToLegalXml` onward.  Returns the new value of `previousXML.current`
together with the emitted events. -/
def displayCore (env : DisplayEnv) (chartXML prevXML currentXml : String)
    (showToast : Bool) (evs0 : List Ev) : String × List Ev :=
  let convertedXml := env.convert currentXml
  let evs1 := evs0 ++ [Ev.convertCalled currentXml]
  if convertedXml = prevXML then (prevXML, evs1)
  else if env.parseOk ("<root>" ++ convertedXml ++ "</root>") then
    let baseXML := if chartXML = "" then defaultBaseXml else chartXML
    match env.replace baseXML convertedXml with
    | Except.error _ =>
        (prevXML, evs1 ++ [Ev.replaceCalled baseXML convertedXml]
          ++ if showToast then [Ev.toastError "failedToProcess"] else [])
    | Except.ok replacedXML =>
        let evs2 := evs1 ++ [Ev.replaceCalled baseXML convertedXml]
        if showToast = false then
          (convertedXml, evs2 ++ [Ev.display replacedXML])
        else
          match env.validate replacedXML with
          | Except.error _ =>
              (prevXML, evs2 ++ [Ev.validateCalled replacedXML,
                Ev.toastError "failedToProcess"])
          | Except.ok v =>
              if v.valid then
                (convertedXml, evs2 ++ [Ev.validateCalled replacedXML,
                  Ev.display
                    (match v.fixed with
                     | some f => if f = "" then replacedXML else f
                     | none => replacedXML)])
              else
                (prevXML, evs2 ++ [Ev.validateCalled replacedXML,
                  Ev.toastError "validationFailed"])
  else
    (prevXML, evs1 ++ if showToast then [Ev.toastError "malformedXml"] else [])

/-- Embedding of `handleDisplayChart`
(`src/components/chat-message-display.tsx`, lines 334-404).  During
streaming (`showToast = false`) only complete elements are extracted
first, and an empty extraction aborts the update. -/
def handleDisplayChart (env : DisplayEnv) (chartXML prevXML xml : String)
    (showToast : Bool) : String × List Ev :=
  if showToast then displayCore env chartXML prevXML xml true []
  else
    let cells := env.extract xml
    if cells = "" then (prevXML, [Ev.extractCalled xml])
    else displayCore env chartXML prevXML cells false [Ev.extractCalled xml]

/-- A concrete sample environment used by witnesses: extraction and
conversion are the identity, parsing always succeeds, merging
concatenates, validation accepts without a repair, and operation
application returns the base document. -/
def envSample : DisplayEnv :=
  { extract := fun s => s
    convert := fun s => s
    parseOk := fun _ => true
    replace := fun b f => Except.ok (b ++ f)
    validate := fun _ => Except.ok ⟨true, none⟩
    applyOps := fun b _ => Except.ok b }

/-- A second sample environment whose validation always reports invalid,
used to exhibit the rejection path. -/
def envReject : DisplayEnv :=
  { envSample with validate := fun _ => Except.ok ⟨false, none⟩ }

/-- Sample environment whose DOM parse check always fails. -/
def envParseFail : DisplayEnv :=
  { envSample with parseOk := fun _ => false }

/-- Sample environment whose merge step always throws. -/
def envReplaceThrow : DisplayEnv :=
  { envSample with replace := fun _ _ => Except.error "boom" }

/-- Sample environment whose validation step always throws. -/
def envValidateThrow : DisplayEnv :=
  { envSample with validate := fun _ => Except.error "boom" }

/-- The fixed debounce interval of the streaming coordinator
(`src/components/chat-message-display.tsx`, line 208). -/
def STREAMING_DEBOUNCE_MS : Nat := 150

/-- Streaming state of a tool part, as delivered by the transport. -/
inductive PartState where
  | inputStreaming
  | inputAvailable
  | outputAvailable
deriving DecidableEq, Repr

/-- The tool type of a part, as far as the streaming effect
distinguishes it. -/
inductive PartType where
  | displayDiagram
  | editDiagram
  | otherTool
deriving DecidableEq, Repr

/-- One tool part of the last message, as inspected by the streaming
`useEffect`.  `xml` is `input?.xml` (present only for `display_diagram`
inputs), `operations` is `input?.operations`. -/
structure Part where
  ptype : PartType
  toolCallId : String
  xml : Option String
  operations : Option (List (Option RawOp))
  pstate : PartState
deriving DecidableEq, Repr

/-- The mutable refs of the streaming coordinator: the processed tool-call
set (`processedToolCallsRef`), the last-processed-XML map
(`lastProcessedXmlRef`, which also stores the `"-opCount"` keys of the
edit path), the pending debounced XML and its timer (the timer stores the
`toolCallId` captured by the scheduled callback), the pending edit
operations and their timer, and the captured original XML per tool call
(`editDiagramOriginalXmlRef`). -/
structure CoordState where
  processed : List String
  lastXml : List (String × String)
  pendingXml : Option String
  displayTimer : Option String
  pendingEdit : Option (List RawOp × String)
  editTimer : Bool
  origXml : List (String × String)
deriving DecidableEq, Repr

/-- Delete a key from an association list (`Map.delete`). -/
def merase : List (String × String) → String → List (String × String)
  | [], _ => []
  | kv :: rest, k => if kv.1 = k then merase rest k else kv :: merase rest k

/-- Set a key in an association list (`Map.set`). -/
def mset (m : List (String × String)) (k v : String) :
    List (String × String) :=
  (k, v) :: merase m k

/-- Observable actions of one step of the streaming coordinator. -/
inductive Act where
  | schedDisplayTimer (ms : Nat)
  | cancelDisplayTimer
  | firePreview (xml : String)
  | finalDisplay (tid xml : String)
  | schedEditTimer (ms : Nat)
  | cancelEditTimer
  | editPreview (tid base : String) (ops : List RawOp) (edited : String)
  | editPreviewFailed
  | finalizeEdit (tid : String)
  | warnNoChart
deriving DecidableEq, Repr

/-- The `edit_diagram` branch of the streaming effect after the
original-XML capture (`src/components/chat-message-display.tsx`, lines
546-630). -/
def editRest (s : CoordState) (p : Part) (completeOps : List RawOp) :
    CoordState × List Act :=
  match s.origXml.lookup p.toolCallId with
  | none => (s, [])
  | some o =>
    if o = "" then (s, [])
    else if s.lastXml.lookup (p.toolCallId ++ "-opCount")
        = some (Nat.repr completeOps.length) then (s, [])
    else if p.pstate = PartState.inputStreaming
        ∨ p.pstate = PartState.inputAvailable then
      if s.editTimer then
        ({ s with pendingEdit := some (completeOps, p.toolCallId) }, [])
      else
        ({ s with
            pendingEdit := some (completeOps, p.toolCallId)
            editTimer := true },
          [Act.schedEditTimer STREAMING_DEBOUNCE_MS])
    else if p.pstate = PartState.outputAvailable
        ∧ p.toolCallId ∉ s.processed then
      if s.editTimer then
        ({ s with
            editTimer := false
            lastXml := merase s.lastXml (p.toolCallId ++ "-opCount")
            processed := p.toolCallId :: s.processed },
          [Act.cancelEditTimer, Act.finalizeEdit p.toolCallId])
      else
        ({ s with
            lastXml := merase s.lastXml (p.toolCallId ++ "-opCount"),
            processed := p.toolCallId :: s.processed },
          [Act.finalizeEdit p.toolCallId])
    else (s, [])

/-- One part of the streaming `useEffect`
(`src/components/chat-message-display.tsx`, lines 438-632), processing a
single tool part against the coordinator state, given the current chart
XML. -/
def stepPart (chart : String) (s : CoordState) (p : Part) :
    CoordState × List Act :=
  match p.ptype with
  | PartType.displayDiagram =>
    match p.xml with
    | none => (s, [])
    | some x =>
      if x = "" then (s, [])
      else if s.lastXml.lookup p.toolCallId = some x then (s, [])
      else if p.pstate = PartState.inputStreaming
          ∨ p.pstate = PartState.inputAvailable then
        if s.displayTimer = none then
          ({ s with pendingXml := some x, displayTimer := some p.toolCallId },
            [Act.schedDisplayTimer STREAMING_DEBOUNCE_MS])
        else
          ({ s with pendingXml := some x }, [])
      else if p.pstate = PartState.outputAvailable
          ∧ p.toolCallId ∉ s.processed then
        if s.displayTimer = none then
          ({ s with
              processed := p.toolCallId :: s.processed
              lastXml := merase s.lastXml p.toolCallId },
            [Act.finalDisplay p.toolCallId x])
        else
          ({ s with
              displayTimer := none
              pendingXml := none
              processed := p.toolCallId :: s.processed
              lastXml := merase s.lastXml p.toolCallId },
            [Act.cancelDisplayTimer, Act.finalDisplay p.toolCallId x])
      else (s, [])
  | PartType.editDiagram =>
    match p.operations with
    | none => (s, [])
    | some rawOps =>
      if getCompleteOperations (some rawOps) = [] then (s, [])
      else
        match s.origXml.lookup p.toolCallId with
        | none =>
          if chart = "" then (s, [Act.warnNoChart])
          else editRest
            { s with origXml := mset s.origXml p.toolCallId chart }
            p (getCompleteOperations (some rawOps))
        | some _ => editRest s p (getCompleteOperations (some rawOps))
  | PartType.otherTool => (s, [])

/-- The debounce callback of the `display_diagram` path
(`src/components/chat-message-display.tsx`, lines 478-496): clear the
refs, then preview the latest pending XML and record it for the captured
tool call. -/
def stepFireDisplay (s : CoordState) : CoordState × List Act :=
  match s.displayTimer with
  | none => (s, [])
  | some tid0 =>
    match s.pendingXml with
    | some x =>
        ({ s with
            displayTimer := none
            pendingXml := none
            lastXml := mset s.lastXml tid0 x },
          [Act.firePreview x])
    | none => ({ s with displayTimer := none, pendingXml := none }, [])

/-- The debounce callback of the `edit_diagram` path
(`src/components/chat-message-display.tsx`, lines 569-614): clear the
refs, then apply the pending operations to the captured original XML and
preview the result. -/
def stepFireEdit (env : DisplayEnv) (s : CoordState) :
    CoordState × List Act :=
  if s.editTimer then
    match s.pendingEdit with
    | none => ({ s with editTimer := false, pendingEdit := none }, [])
    | some pe =>
      let s1 : CoordState := { s with editTimer := false, pendingEdit := none }
      match s.origXml.lookup pe.2 with
      | none => (s1, [])
      | some o =>
        if o = "" then (s1, [])
        else
          match env.applyOps o pe.1 with
          | Except.ok edited =>
              ({ s1 with
                  lastXml := mset s1.lastXml (pe.2 ++ "-opCount")
                    (Nat.repr pe.1.length) },
                [Act.editPreview pe.2 o pe.1 edited])
          | Except.error _ => (s1, [Act.editPreviewFailed])
  else (s, [])

/-- One input to the coordinator: a tool part re-render (with the chart
XML current at that time), or the firing of one of the two debounce
timers. -/
inductive SIn where
  | part (chart : String) (p : Part)
  | fireDisplay
  | fireEdit
deriving DecidableEq, Repr

/-- One step of the coordinator. -/
def step (env : DisplayEnv) (s : CoordState) (i : SIn) :
    CoordState × List Act :=
  match i with
  | SIn.part chart p => stepPart chart s p
  | SIn.fireDisplay => stepFireDisplay s
  | SIn.fireEdit => stepFireEdit env s

/-- Run the coordinator over a sequence of inputs, accumulating actions. -/
def run (env : DisplayEnv) (s : CoordState) (ins : List SIn) :
    CoordState × List Act :=
  match ins with
  | [] => (s, [])
  | i :: rest =>
    let r1 := step env s i
    let r2 := run env r1.1 rest
    (r2.1, r1.2 ++ r2.2)

/-- The number of final-commit actions for a given tool call in an action
list: `finalDisplay` for the `display_diagram` path, `finalizeEdit` for
the `edit_diagram` path. -/
def countFinal (tid : String) (acts : List Act) : Nat :=
  acts.countP (fun a =>
    match a with
    | Act.finalDisplay t _ => t == tid
    | Act.finalizeEdit t => t == tid
    | _ => false)

/-- The coordinator state at mount: all refs empty. -/
def coordInit : CoordState := ⟨[], [], none, none, none, false, []⟩

/-- A completed `display_diagram` part for tool call `"t"`. -/
def partOutDisplay : Part :=
  ⟨PartType.displayDiagram, "t", some "x", none, PartState.outputAvailable⟩

/-- A streaming `display_diagram` part for tool call `"t"` carrying new
XML. -/
def partStreamDisplay : Part :=
  ⟨PartType.displayDiagram, "t", some "y", none, PartState.inputStreaming⟩

/-- A sample complete diagram operation. -/
def sampleOp : RawOp := ⟨some "add", some "c2", some "x"⟩

/-- A coordinator state with a captured original XML and a pending edit,
ready for its timer to fire. -/
def sampleEditState : CoordState :=
  ⟨[], [], none, none, some ([sampleOp], "t"), true, [("t", "base")]⟩

/-- A coordinator state with a display debounce timer pending and no
queued payload yet. -/
def sTimerOnly : CoordState := ⟨[], [], none, some "t", none, false, []⟩

/-- A coordinator state with a display debounce timer pending and a
queued payload. -/
def sTimerPend : CoordState := ⟨[], [], some "y", some "t", none, false, []⟩

end DrawIo

section C6Theorems

open DrawIo

/-- The source-side filter condition agrees with the structured amended
predicate. -/
lemma isCompleteOp_iff (o : RawOp) : isCompleteOp o = true ↔ AmendedComplete o := by
  obtain ⟨op, cid, nx⟩ := o
  cases op <;> cases cid <;> cases nx <;>
    simp [isCompleteOp, AmendedComplete] <;> tauto

/-- Claim C6, as stated, is false on the code: a `delete` operation carrying
a `new_xml` string is not well-formed per the claim's shape (which requires
`new_xml` absent for `delete`), yet `getCompleteOperations` keeps it. -/
theorem c6_counterexample :
    getCompleteOperations
        (some [some ⟨some "delete", some "a", some "x"⟩]) =
      [⟨some "delete", some "a", some "x"⟩] ∧
    claimC6Filter (some [some ⟨some "delete", some "a", some "x"⟩]) = [] := by
  constructor <;> rfl

/-- Claim C6 (amended): `getCompleteOperations` returns exactly those
operations of its input, in their original relative order, whose
`operation` is one of `add`/`update`/`delete`, whose `cell_id` is a
nonempty string, and whose `new_xml` is a string for `add`/`update`
(for `delete`, `new_xml` is unconstrained).  All other entries, including
absent/non-array inputs and falsy array entries, are dropped.  Order
preservation is expressed as being a sublist of the present entries. -/
theorem c6_amended (l : List (Option RawOp)) :
    (∀ o : RawOp,
        o ∈ getCompleteOperations (some l) ↔ some o ∈ l ∧ AmendedComplete o)
    ∧ (getCompleteOperations (some l)).Sublist (l.filterMap id)
    ∧ getCompleteOperations none = [] := by
  refine ⟨fun o => ?_, ?_, rfl⟩
  · simp only [getCompleteOperations, List.mem_filter, List.mem_filterMap,
      id_eq, isCompleteOp_iff]
    constructor
    · rintro ⟨⟨a, ha, rfl⟩, h⟩
      exact ⟨ha, h⟩
    · rintro ⟨ha, h⟩
      exact ⟨⟨some o, ha, rfl⟩, h⟩
  · exact List.filter_sublist _

end C6Theorems

section C10Theorems

open DrawIo

/-- When provider ids are unique, `find?` on the id returns exactly the
member with that id. -/
lemma find_provider_eq (l : List ProviderConfig) (pid : String)
    (hnd : (l.map ProviderConfig.id).Nodup) (p : ProviderConfig)
    (hp : p ∈ l) (hid : p.id = pid) :
    l.find? (fun q => q.id == pid) = some p := by
  cases hfind : l.find? (fun q => q.id == pid) with
  | none =>
      rw [List.find?_eq_none] at hfind
      have := hfind p hp
      simp [hid] at this
  | some q =>
      have hq : q ∈ l := List.mem_of_find?_eq_some hfind
      have hq2 := List.find?_some hfind
      have hqid : q.id = p.id := by
        rw [hid]
        simpa using hq2
      have : q = p := List.inj_on_of_nodup_map hnd hq hp hqid
      rw [this]

/-- Membership in the model-id list consulted by `deleteProvider`
corresponds, under unique provider ids, to membership in some provider
with the given id. -/
lemma mem_found_iff (l : List ProviderConfig) (pid m : String)
    (hnd : (l.map ProviderConfig.id).Nodup) :
    m ∈ ((l.find? (fun p => p.id == pid)).map
          (fun p => p.models.map (fun mm => mm.id))).getD []
      ↔ ∃ p, p ∈ l ∧ p.id = pid ∧ m ∈ p.models.map (fun mm => mm.id) := by
  cases hfind : l.find? (fun p => p.id == pid) with
  | none =>
      simp only [hfind, Option.map_none', Option.getD_none, List.not_mem_nil,
        false_iff]
      rintro ⟨p, hp, hid, _⟩
      rw [List.find?_eq_none] at hfind
      have := hfind p hp
      simp [hid] at this
  | some q =>
      simp only [hfind, Option.map_some', Option.getD_some]
      constructor
      · intro hm
        have hq2 := List.find?_some hfind
        exact ⟨q, List.mem_of_find?_eq_some hfind, by simpa using hq2, hm⟩
      · rintro ⟨p, hp, hid, hm⟩
        have : l.find? (fun p => p.id == pid) = some p :=
          find_provider_eq l pid hnd p hp hid
        rw [hfind] at this
        cases this
        exact hm

/-- Claim C10: `deleteProvider providerId` removes exactly the provider
with that id and clears `selectedModelId` iff the selected model belonged
to the removed provider; `deleteModel providerId modelConfigId` removes
exactly that model from that provider and clears `selectedModelId` iff it
equals the deleted model's id; all other providers, models and config
fields are unchanged, and neither delete leaves `selectedModelId`
referring to a model it removed.  Provider ids are assumed unique ("the
provider with that id") and a selected model is a nonempty id (the hook
treats a falsy `selectedModelId` as no selection). -/
theorem c10_delete_ops (cfg : MultiModelConfig) (pid mcid : String)
    (hnd : (cfg.providers.map ProviderConfig.id).Nodup) :
    ((deleteProvider pid cfg).providers =
        cfg.providers.filter (fun p => !(p.id == pid)))
    ∧ (∀ m, cfg.selectedModelId = some m → m ≠ "" →
        ((deleteProvider pid cfg).selectedModelId = none ↔
          ∃ p, p ∈ cfg.providers ∧ p.id = pid ∧
            m ∈ p.models.map (fun mm => mm.id)))
    ∧ ((deleteProvider pid cfg).showUnvalidatedModels =
        cfg.showUnvalidatedModels)
    ∧ (∀ m, (deleteProvider pid cfg).selectedModelId = some m → m ≠ "" →
        ∀ p, p ∈ cfg.providers → p.id = pid →
          m ∉ p.models.map (fun mm => mm.id))
    ∧ ((deleteModel pid mcid cfg).providers =
        cfg.providers.map (fun p =>
          if p.id = pid then
            { p with models := p.models.filter (fun mm => !(mm.id == mcid)) }
          else p))
    ∧ ((deleteModel pid mcid cfg).selectedModelId =
        if cfg.selectedModelId = some mcid then none
        else cfg.selectedModelId)
    ∧ (∀ m, (deleteModel pid mcid cfg).selectedModelId = some m → m ≠ mcid)
    ∧ ((deleteModel pid mcid cfg).showUnvalidatedModels =
        cfg.showUnvalidatedModels) := by
  refine ⟨rfl, ?_, rfl, ?_, ?_, rfl, ?_, rfl⟩
  · intro m hm hne
    simp only [deleteProvider, hm]
    by_cases hmem : m ∈ ((cfg.providers.find? (fun p => p.id == pid)).map
        (fun p => p.models.map (fun m => m.id))).getD []
    · rw [if_pos ⟨by simp [truthyStr, hne], by simpa using hmem⟩]
      simp only [true_iff]
      exact (mem_found_iff cfg.providers pid m hnd).mp hmem
    · rw [if_neg (by
        rintro ⟨-, hc⟩
        exact hmem (by simpa using hc))]
      constructor
      · intro h
        exact absurd h (Option.some_ne_none m)
      · intro hex
        exact absurd ((mem_found_iff cfg.providers pid m hnd).mpr hex) hmem
  · intro m hsel hne p hp hid hmem
    simp only [deleteProvider] at hsel
    split at hsel <;> rename_i hcond
    · simp at hsel
    · exact hcond ⟨by simp [truthyStr, hsel, hne], by
        rw [hsel]
        simpa using (mem_found_iff cfg.providers pid m hnd).mpr
          ⟨p, hp, hid, hmem⟩⟩
  · simp only [deleteModel]
    refine List.map_congr_left fun p _ => ?_
    by_cases h : p.id = pid <;> simp [h]
  · intro m hsel heq
    simp only [deleteModel] at hsel
    split at hsel <;> rename_i h
    · simp at hsel
    · exact h (heq ▸ hsel)

/-- Witness for `c10_delete_ops` at a concrete configuration: one provider
`"p"` holding model `"m"` which is selected, plus a second provider
`"q"`. -/
theorem c10_delete_ops_witness :
    ((sampleCfg.providers.map DrawIo.ProviderConfig.id).Nodup)
    ∧ ((deleteProvider "p" sampleCfg).selectedModelId = none) := by
  have h := c10_delete_ops sampleCfg "p" "m" (by decide)
  refine ⟨by decide, ?_⟩
  exact (h.2.1 "m" rfl (by decide)).mpr
    ⟨⟨"p", [⟨"m", "pm"⟩], "P"⟩, by decide, rfl, by decide⟩

end C10Theorems

section C8Theorems

open DrawIo

/-- One scanner step advances the position by one, never retracts the
last-complete mark, and keeps the mark within the scanned region. -/
lemma scanStep_spec (st : ScanState) (c : Char)
    (h : st.lastComplete ≤ st.pos) :
    (scanStep st c).pos = st.pos + 1
    ∧ st.lastComplete ≤ (scanStep st c).lastComplete
    ∧ (scanStep st c).lastComplete ≤ (scanStep st c).pos := by
  unfold scanStep
  repeat' split
  all_goals refine ⟨rfl, ?_, ?_⟩
  all_goals simp only []
  all_goals (try split)
  all_goals omega

/-- Folding the scanner over a list advances the position by the list
length, never retracts the last-complete mark, and keeps the mark within
the scanned region. -/
lemma scanFold_spec (l : List Char) (st : ScanState)
    (h : st.lastComplete ≤ st.pos) :
    (l.foldl scanStep st).pos = st.pos + l.length
    ∧ st.lastComplete ≤ (l.foldl scanStep st).lastComplete
    ∧ (l.foldl scanStep st).lastComplete ≤ (l.foldl scanStep st).pos := by
  induction l generalizing st with
  | nil => simpa using h
  | cons c rest ih =>
      obtain ⟨h1, h2, h3⟩ := scanStep_spec st c h
      obtain ⟨g1, g2, g3⟩ := ih (scanStep st c) h3
      refine ⟨?_, le_trans h2 g2, g3⟩
      rw [List.foldl_cons, g1, h1, List.length_cons]
      omega

/-- Claim C8: the Fragment Extractor is monotone along prefixes — for
strings `s1` a prefix of `s2`, every complete element emitted for `s1` is
emitted unchanged, in the same order, as a prefix of what is emitted for
`s2`; no previously emitted output is ever retracted. -/
theorem c8_extract_monotone (s1 s2 : String) (h : s1.data <+: s2.data) :
    (extractCompleteMxCells s1).data <+: (extractCompleteMxCells s2).data := by
  obtain ⟨t, ht⟩ := h
  have hbase := scanFold_spec s1.data scanInit (le_refl 0)
  have hpos0 : scanInit.pos = 0 := rfl
  have hk1 : (scanList s1.data).lastComplete ≤ s1.data.length := by
    show (s1.data.foldl scanStep scanInit).lastComplete ≤ s1.data.length
    have h3 := hbase.2.2
    have h1 := hbase.1
    omega
  have hk12 : (scanList s1.data).lastComplete ≤
      (scanList s2.data).lastComplete := by
    show (s1.data.foldl scanStep scanInit).lastComplete ≤
      (s2.data.foldl scanStep scanInit).lastComplete
    rw [← ht, List.foldl_append]
    exact (scanFold_spec t (s1.data.foldl scanStep scanInit)
      hbase.2.2).2.1
  show s1.data.take (scanList s1.data).lastComplete <+:
    s2.data.take (scanList s2.data).lastComplete
  have h1 : s1.data.take (scanList s1.data).lastComplete =
      s2.data.take (scanList s1.data).lastComplete := by
    rw [← ht]
    exact (List.take_append_of_le_length hk1).symm
  rw [h1]
  refine ⟨(s2.data.take (scanList s2.data).lastComplete).drop
    (scanList s1.data).lastComplete, ?_⟩
  have h2 : s2.data.take (scanList s1.data).lastComplete =
      (s2.data.take (scanList s2.data).lastComplete).take
        (scanList s1.data).lastComplete := by
    rw [List.take_take, Nat.min_eq_left hk12]
  rw [h2, List.take_append_drop]

/-- Witness for `c8_extract_monotone` on the spec's streaming scenario:
the first element is complete, the second is cut mid-tag, and completing
it preserves the previously emitted element. -/
theorem c8_extract_monotone_witness :
    (("<node id=(5) parent=(1)/><node id=(6)").data <+:
        ("<node id=(5) parent=(1)/><node id=(6) parent=(1)/>").data)
    ∧ ((extractCompleteMxCells "<node id=(5) parent=(1)/><node id=(6)").data
        <+: (extractCompleteMxCells
              "<node id=(5) parent=(1)/><node id=(6) parent=(1)/>").data) := by
  constructor
  · exact ⟨(" parent=(1)/>").data, by decide⟩
  · exact c8_extract_monotone _ _ ⟨(" parent=(1)/>").data, by decide⟩

end C8Theorems

section DisplayShapeLemmas

open DrawIo

/-- On the final path `handleDisplayChart` goes straight into the shared
core. -/
lemma hdc_true (env : DisplayEnv) (cx px xml : String) :
    handleDisplayChart env cx px xml true = displayCore env cx px xml true [] :=
  rfl

/-- On the streaming path `handleDisplayChart` aborts when no complete
element was extracted. -/
lemma hdc_false_empty (env : DisplayEnv) (cx px xml : String)
    (h : env.extract xml = "") :
    handleDisplayChart env cx px xml false = (px, [Ev.extractCalled xml]) := by
  simp [handleDisplayChart, h]

/-- On the streaming path `handleDisplayChart` feeds the extracted
elements to the shared core. -/
lemma hdc_false_ne (env : DisplayEnv) (cx px xml : String)
    (h : env.extract xml ≠ "") :
    handleDisplayChart env cx px xml false =
      displayCore env cx px (env.extract xml) false [Ev.extractCalled xml] := by
  simp [handleDisplayChart, h]

/-- Core shape: unchanged converted XML skips the update. -/
lemma core_skip (env : DisplayEnv) (cx px cur : String) (st : Bool)
    (evs0 : List Ev) (h : env.convert cur = px) :
    displayCore env cx px cur st evs0 = (px, evs0 ++ [Ev.convertCalled cur]) := by
  simp [displayCore, h]

/-- Core shape: a parse failure aborts, toasting only on the final path. -/
lemma core_malformed (env : DisplayEnv) (cx px cur : String) (st : Bool)
    (evs0 : List Ev) (h1 : env.convert cur ≠ px)
    (h2 : env.parseOk ("<root>" ++ env.convert cur ++ "</root>") = false) :
    displayCore env cx px cur st evs0 =
      (px, evs0 ++ [Ev.convertCalled cur]
        ++ if st then [Ev.toastError "malformedXml"] else []) := by
  simp [displayCore, h1, h2]

/-- Core shape: an exception in `replaceNodes` aborts, toasting only on
the final path. -/
lemma core_replace_err (env : DisplayEnv) (cx px cur : String) (st : Bool)
    (evs0 : List Ev) (err : String) (h1 : env.convert cur ≠ px)
    (h2 : env.parseOk ("<root>" ++ env.convert cur ++ "</root>") = true)
    (h3 : env.replace (if cx = "" then defaultBaseXml else cx)
        (env.convert cur) = Except.error err) :
    displayCore env cx px cur st evs0 =
      (px, evs0 ++ [Ev.convertCalled cur,
        Ev.replaceCalled (if cx = "" then defaultBaseXml else cx)
          (env.convert cur)]
        ++ if st then [Ev.toastError "failedToProcess"] else []) := by
  simp [displayCore, h1, h2, h3]

/-- Core shape: the streaming path displays the merged document without
validation. -/
lemma core_preview_ok (env : DisplayEnv) (cx px cur : String)
    (evs0 : List Ev) (rep : String) (h1 : env.convert cur ≠ px)
    (h2 : env.parseOk ("<root>" ++ env.convert cur ++ "</root>") = true)
    (h3 : env.replace (if cx = "" then defaultBaseXml else cx)
        (env.convert cur) = Except.ok rep) :
    displayCore env cx px cur false evs0 =
      (env.convert cur, evs0 ++ [Ev.convertCalled cur,
        Ev.replaceCalled (if cx = "" then defaultBaseXml else cx)
          (env.convert cur),
        Ev.display rep]) := by
  simp [displayCore, h1, h2, h3]

/-- Core shape: an exception in `validateAndFixXml` on the final path
aborts with a toast. -/
lemma core_validate_err (env : DisplayEnv) (cx px cur : String)
    (evs0 : List Ev) (rep err : String) (h1 : env.convert cur ≠ px)
    (h2 : env.parseOk ("<root>" ++ env.convert cur ++ "</root>") = true)
    (h3 : env.replace (if cx = "" then defaultBaseXml else cx)
        (env.convert cur) = Except.ok rep)
    (h4 : env.validate rep = Except.error err) :
    displayCore env cx px cur true evs0 =
      (px, evs0 ++ [Ev.convertCalled cur,
        Ev.replaceCalled (if cx = "" then defaultBaseXml else cx)
          (env.convert cur),
        Ev.validateCalled rep, Ev.toastError "failedToProcess"]) := by
  simp [displayCore, h1, h2, h3, h4]

/-- Core shape: successful validation on the final path commits and
displays the (possibly repaired) document. -/
lemma core_final_valid (env : DisplayEnv) (cx px cur : String)
    (evs0 : List Ev) (rep : String) (v : ValidationResult)
    (h1 : env.convert cur ≠ px)
    (h2 : env.parseOk ("<root>" ++ env.convert cur ++ "</root>") = true)
    (h3 : env.replace (if cx = "" then defaultBaseXml else cx)
        (env.convert cur) = Except.ok rep)
    (h4 : env.validate rep = Except.ok v) (h5 : v.valid = true) :
    displayCore env cx px cur true evs0 =
      (env.convert cur, evs0 ++ [Ev.convertCalled cur,
        Ev.replaceCalled (if cx = "" then defaultBaseXml else cx)
          (env.convert cur),
        Ev.validateCalled rep,
        Ev.display
          (match v.fixed with
           | some f => if f = "" then rep else f
           | none => rep)]) := by
  simp [displayCore, h1, h2, h3, h4, h5]

/-- Core shape: failed validation on the final path leaves the previous
document and toasts. -/
lemma core_final_invalid (env : DisplayEnv) (cx px cur : String)
    (evs0 : List Ev) (rep : String) (v : ValidationResult)
    (h1 : env.convert cur ≠ px)
    (h2 : env.parseOk ("<root>" ++ env.convert cur ++ "</root>") = true)
    (h3 : env.replace (if cx = "" then defaultBaseXml else cx)
        (env.convert cur) = Except.ok rep)
    (h4 : env.validate rep = Except.ok v) (h5 : v.valid = false) :
    displayCore env cx px cur true evs0 =
      (px, evs0 ++ [Ev.convertCalled cur,
        Ev.replaceCalled (if cx = "" then defaultBaseXml else cx)
          (env.convert cur),
        Ev.validateCalled rep, Ev.toastError "validationFailed"]) := by
  simp [displayCore, h1, h2, h3, h4, h5]

end DisplayShapeLemmas

section C1Theorems

open DrawIo

/-- Claim C1: for every finalized payload processed by `handleDisplayChart`
with `showToast = true` that reaches validation, the diagram is committed
(`onDisplayChart` invoked and `previousXML` updated to the converted XML)
iff `validateAndFixXml` on the merged document reports valid; when it
reports invalid, neither happens, so the previous document remains the
visible state. -/
theorem c1_commit_iff_valid (env : DisplayEnv) (cx px xml rep : String)
    (v : ValidationResult)
    (h1 : env.convert xml ≠ px)
    (h2 : env.parseOk ("<root>" ++ env.convert xml ++ "</root>") = true)
    (h3 : env.replace (if cx = "" then defaultBaseXml else cx)
        (env.convert xml) = Except.ok rep)
    (h4 : env.validate rep = Except.ok v) :
    (((∃ y, Ev.display y ∈ (handleDisplayChart env cx px xml true).2)
        ∧ (handleDisplayChart env cx px xml true).1 = env.convert xml)
      ↔ v.valid = true)
    ∧ (v.valid = false →
        (handleDisplayChart env cx px xml true).1 = px
        ∧ ∀ y, Ev.display y ∉ (handleDisplayChart env cx px xml true).2) := by
  rw [hdc_true]
  cases hv : v.valid
  · rw [core_final_invalid env cx px xml [] rep v h1 h2 h3 h4 hv]
    refine ⟨⟨?_, ?_⟩, ?_⟩
    · rintro ⟨-, hprev⟩
      exact absurd hprev.symm h1
    · intro h
      exact absurd h (by simp)
    · intro _
      refine ⟨rfl, fun y hy => ?_⟩
      simp at hy
  · rw [core_final_valid env cx px xml [] rep v h1 h2 h3 h4 hv]
    refine ⟨⟨fun _ => rfl, fun _ =>
      ⟨⟨(match v.fixed with
          | some f => if f = "" then rep else f
          | none => rep), by simp⟩, rfl⟩⟩, ?_⟩
    intro h
    exact absurd h (by simp)

/-- Witness for `c1_commit_iff_valid`: with an accepting validator the
commit happens, and with a rejecting validator it does not. -/
theorem c1_commit_iff_valid_witness :
    ((handleDisplayChart envSample "c" "x" "y" true).1 = "y"
      ∧ ∃ z, Ev.display z ∈ (handleDisplayChart envSample "c" "x" "y" true).2)
    ∧ ((handleDisplayChart envReject "c" "x" "y" true).1 = "x") := by
  have h1 := c1_commit_iff_valid envSample "c" "x" "y" ("c" ++ "y")
    ⟨true, none⟩ (by decide) rfl rfl rfl
  have h2 := c1_commit_iff_valid envReject "c" "x" "y" ("c" ++ "y")
    ⟨false, none⟩ (by decide) rfl rfl rfl
  obtain ⟨hd, hp⟩ := h1.1.mpr rfl
  exact ⟨⟨hp, hd⟩, (h2.2 rfl).1⟩

end C1Theorems

section C5Theorems

open DrawIo

/-- In every branch of the shared core, any call of `replaceNodes` uses as
its base the current chart XML, or the synthesized default wrapper when
the chart XML is empty. -/
lemma core_replace_base (env : DisplayEnv) (cx px cur : String) (st : Bool)
    (evs0 : List Ev)
    (hb0 : ∀ b f, Ev.replaceCalled b f ∈ evs0 →
      b = (if cx = "" then defaultBaseXml else cx)) :
    ∀ b f, Ev.replaceCalled b f ∈ (displayCore env cx px cur st evs0).2 →
      b = (if cx = "" then defaultBaseXml else cx) := by
  intro b f hb
  by_cases hc : env.convert cur = px
  · rw [core_skip _ _ _ _ _ _ hc] at hb
    simp at hb
    exact hb0 b f hb
  · cases hp : env.parseOk ("<root>" ++ env.convert cur ++ "</root>")
    · rw [core_malformed _ _ _ _ _ _ hc hp] at hb
      rcases List.mem_append.mp hb with hb' | hb'
      · rcases List.mem_append.mp hb' with hb'' | hb''
        · exact hb0 b f hb''
        · simp at hb''
      · cases st <;> simp at hb'
    · cases hr : env.replace (if cx = "" then defaultBaseXml else cx)
          (env.convert cur) with
      | error err =>
          rw [core_replace_err _ _ _ _ _ _ err hc hp hr] at hb
          rcases List.mem_append.mp hb with hb' | hb'
          · rcases List.mem_append.mp hb' with hb'' | hb''
            · exact hb0 b f hb''
            · simp at hb''
              exact hb''.1
          · cases st <;> simp at hb'
      | ok rep =>
          cases st
          · rw [core_preview_ok _ _ _ _ _ rep hc hp hr] at hb
            simp at hb
            rcases hb with hb' | hb'
            · exact hb0 b f hb'
            · exact hb'.1
          · cases hvv : env.validate rep with
            | error err =>
                rw [core_validate_err _ _ _ _ _ rep err hc hp hr hvv] at hb
                simp at hb
                rcases hb with hb' | hb'
                · exact hb0 b f hb'
                · exact hb'.1
            | ok v =>
                cases hval : v.valid
                · rw [core_final_invalid _ _ _ _ _ rep v hc hp hr hvv hval] at hb
                  simp at hb
                  rcases hb with hb' | hb'
                  · exact hb0 b f hb'
                  · exact hb'.1
                · rw [core_final_valid _ _ _ _ _ rep v hc hp hr hvv hval] at hb
                  simp at hb
                  rcases hb with hb' | hb'
                  · exact hb0 b f hb'
                  · exact hb'.1

/-- Claim C5: whenever the current chart XML is empty at merge time,
`handleDisplayChart` merges into the synthesized minimal wrapper
(`mxfile → diagram → mxGraphModel → root` with exactly the two sentinel
cells `"0"` and `"1"`), and `replaceNodes` is always called with the full
current document (or that wrapper) as its base. -/
theorem c5_merge_base (env : DisplayEnv) (cx px xml : String) (st : Bool) :
    ∀ b f, Ev.replaceCalled b f ∈ (handleDisplayChart env cx px xml st).2 →
      b = (if cx = "" then defaultBaseXml else cx)
      ∧ (cx = "" → b = "<mxfile><diagram name=\"Page-1\" id=\"page-1\"><mxGraphModel><root><mxCell id=\"0\"/><mxCell id=\"1\" parent=\"0\"/></root></mxGraphModel></diagram></mxfile>") := by
  intro b f hb
  have hbase : b = (if cx = "" then defaultBaseXml else cx) := by
    cases st
    · by_cases he : env.extract xml = ""
      · rw [hdc_false_empty env cx px xml he] at hb
        simp at hb
      · rw [hdc_false_ne env cx px xml he] at hb
        refine core_replace_base env cx px (env.extract xml) false
          [Ev.extractCalled xml] ?_ b f hb
        intro b' f' hb'
        simp at hb'
    · rw [hdc_true] at hb
      refine core_replace_base env cx px xml true [] ?_ b f hb
      intro b' f' hb'
      simp at hb'
  refine ⟨hbase, fun hcx => ?_⟩
  rw [hbase, if_pos hcx]
  rfl

/-- Witness for `c5_merge_base`: a preview with empty chart XML calls the
merger on the synthesized wrapper. -/
theorem c5_merge_base_witness :
    (Ev.replaceCalled defaultBaseXml "y" ∈
        (handleDisplayChart envSample "" "x" "y" false).2)
    ∧ defaultBaseXml = (if ("" : String) = "" then defaultBaseXml else "") := by
  refine ⟨by decide, ?_⟩
  exact (c5_merge_base envSample "" "x" "y" false defaultBaseXml "y"
    (by decide)).1

end C5Theorems

section C3Theorems

open DrawIo

/-- Claim C3: every streaming preview render (`showToast = false`) goes
only through the Extractor, Legalizer and Merger before display — the
Validator is never invoked — while on the final path (`showToast = true`)
every display is preceded by an invocation of `validateAndFixXml`. -/
theorem c3_validator_only_final (env : DisplayEnv) (cx px xml : String) :
    (∀ s, Ev.validateCalled s ∉ (handleDisplayChart env cx px xml false).2)
    ∧ (∀ e, e ∈ (handleDisplayChart env cx px xml false).2 →
        (∃ s, e = Ev.extractCalled s) ∨ (∃ s, e = Ev.convertCalled s)
        ∨ (∃ b f, e = Ev.replaceCalled b f) ∨ (∃ y, e = Ev.display y))
    ∧ (∀ y, Ev.display y ∈ (handleDisplayChart env cx px xml true).2 →
        ∃ s, Ev.validateCalled s ∈ (handleDisplayChart env cx px xml true).2) := by
  refine ⟨?_, ?_, ?_⟩
  · intro s hs
    by_cases he : env.extract xml = ""
    · rw [hdc_false_empty env cx px xml he] at hs
      simp at hs
    · rw [hdc_false_ne env cx px xml he] at hs
      by_cases hc : env.convert (env.extract xml) = px
      · rw [core_skip _ _ _ _ _ _ hc] at hs
        simp at hs
      · cases hp : env.parseOk
            ("<root>" ++ env.convert (env.extract xml) ++ "</root>")
        · rw [core_malformed _ _ _ _ _ _ hc hp] at hs
          simp at hs
        · cases hr : env.replace (if cx = "" then defaultBaseXml else cx)
              (env.convert (env.extract xml)) with
          | error err =>
              rw [core_replace_err _ _ _ _ _ _ err hc hp hr] at hs
              simp at hs
          | ok rep =>
              rw [core_preview_ok _ _ _ _ _ rep hc hp hr] at hs
              simp at hs
  · intro e he
    by_cases hex : env.extract xml = ""
    · rw [hdc_false_empty env cx px xml hex] at he
      simp at he
      exact Or.inl ⟨xml, he⟩
    · rw [hdc_false_ne env cx px xml hex] at he
      by_cases hc : env.convert (env.extract xml) = px
      · rw [core_skip _ _ _ _ _ _ hc] at he
        simp at he
        rcases he with rfl | rfl
        · exact Or.inl ⟨_, rfl⟩
        · exact Or.inr (Or.inl ⟨_, rfl⟩)
      · cases hp : env.parseOk
            ("<root>" ++ env.convert (env.extract xml) ++ "</root>")
        · rw [core_malformed _ _ _ _ _ _ hc hp] at he
          simp at he
          rcases he with rfl | rfl
          · exact Or.inl ⟨_, rfl⟩
          · exact Or.inr (Or.inl ⟨_, rfl⟩)
        · cases hr : env.replace (if cx = "" then defaultBaseXml else cx)
              (env.convert (env.extract xml)) with
          | error err =>
              rw [core_replace_err _ _ _ _ _ _ err hc hp hr] at he
              simp at he
              rcases he with rfl | rfl | rfl
              · exact Or.inl ⟨_, rfl⟩
              · exact Or.inr (Or.inl ⟨_, rfl⟩)
              · exact Or.inr (Or.inr (Or.inl ⟨_, _, rfl⟩))
          | ok rep =>
              rw [core_preview_ok _ _ _ _ _ rep hc hp hr] at he
              simp at he
              rcases he with rfl | rfl | rfl | rfl
              · exact Or.inl ⟨_, rfl⟩
              · exact Or.inr (Or.inl ⟨_, rfl⟩)
              · exact Or.inr (Or.inr (Or.inl ⟨_, _, rfl⟩))
              · exact Or.inr (Or.inr (Or.inr ⟨_, rfl⟩))
  · intro y hy
    rw [hdc_true] at hy ⊢
    by_cases hc : env.convert xml = px
    · rw [core_skip _ _ _ _ _ _ hc] at hy
      simp at hy
    · cases hp : env.parseOk ("<root>" ++ env.convert xml ++ "</root>")
      · rw [core_malformed _ _ _ _ _ _ hc hp] at hy
        simp at hy
      · cases hr : env.replace (if cx = "" then defaultBaseXml else cx)
            (env.convert xml) with
        | error err =>
            rw [core_replace_err _ _ _ _ _ _ err hc hp hr] at hy
            simp at hy
        | ok rep =>
            refine ⟨rep, ?_⟩
            cases hvv : env.validate rep with
            | error err =>
                rw [core_validate_err _ _ _ _ _ rep err hc hp hr hvv]
                simp
            | ok v =>
                cases hval : v.valid
                · rw [core_final_invalid _ _ _ _ _ rep v hc hp hr hvv hval]
                  simp
                · rw [core_final_valid _ _ _ _ _ rep v hc hp hr hvv hval]
                  simp

/-- Witness for `c3_validator_only_final`: on a concrete run the preview
trace is validator-free and yet displays, while the final trace validates
before its display. -/
theorem c3_validator_only_final_witness :
    (∀ s, Ev.validateCalled s ∉
        (handleDisplayChart envSample "c" "x" "y" false).2)
    ∧ (∃ s, Ev.validateCalled s ∈
        (handleDisplayChart envSample "c" "x" "y" true).2) := by
  have h := c3_validator_only_final envSample "c" "x" "y"
  exact ⟨h.1, h.2.2 ("c" ++ "y") (by decide)⟩

end C3Theorems

section C7Theorems

open DrawIo

/-- Claim C7: speculative previews (`showToast = false`) never raise a
user-visible error — no complete fragment, a parse error and a processing
exception all silently skip the render tick — while in final mode
(`showToast = true`) a malformed document, a processing exception (in
merge or validation) and a validation failure each produce a visible
error notice naming the failure. -/
theorem c7_error_visibility (env : DisplayEnv) (cx px xml : String) :
    (∀ k, Ev.toastError k ∉ (handleDisplayChart env cx px xml false).2)
    ∧ (env.extract xml = "" →
        handleDisplayChart env cx px xml false = (px, [Ev.extractCalled xml]))
    ∧ (env.extract xml ≠ "" →
        env.convert (env.extract xml) ≠ px →
        env.parseOk ("<root>" ++ env.convert (env.extract xml) ++ "</root>")
            = false →
        (handleDisplayChart env cx px xml false).1 = px
        ∧ ∀ y, Ev.display y ∉ (handleDisplayChart env cx px xml false).2)
    ∧ (∀ err, env.extract xml ≠ "" →
        env.convert (env.extract xml) ≠ px →
        env.parseOk ("<root>" ++ env.convert (env.extract xml) ++ "</root>")
            = true →
        env.replace (if cx = "" then defaultBaseXml else cx)
            (env.convert (env.extract xml)) = Except.error err →
        (handleDisplayChart env cx px xml false).1 = px
        ∧ ∀ y, Ev.display y ∉ (handleDisplayChart env cx px xml false).2)
    ∧ (env.convert xml ≠ px →
        env.parseOk ("<root>" ++ env.convert xml ++ "</root>") = false →
        Ev.toastError "malformedXml" ∈ (handleDisplayChart env cx px xml true).2)
    ∧ (∀ err, env.convert xml ≠ px →
        env.parseOk ("<root>" ++ env.convert xml ++ "</root>") = true →
        env.replace (if cx = "" then defaultBaseXml else cx) (env.convert xml)
            = Except.error err →
        Ev.toastError "failedToProcess"
          ∈ (handleDisplayChart env cx px xml true).2)
    ∧ (∀ rep err, env.convert xml ≠ px →
        env.parseOk ("<root>" ++ env.convert xml ++ "</root>") = true →
        env.replace (if cx = "" then defaultBaseXml else cx) (env.convert xml)
            = Except.ok rep →
        env.validate rep = Except.error err →
        Ev.toastError "failedToProcess"
          ∈ (handleDisplayChart env cx px xml true).2)
    ∧ (∀ rep v, env.convert xml ≠ px →
        env.parseOk ("<root>" ++ env.convert xml ++ "</root>") = true →
        env.replace (if cx = "" then defaultBaseXml else cx) (env.convert xml)
            = Except.ok rep →
        env.validate rep = Except.ok v → v.valid = false →
        Ev.toastError "validationFailed"
          ∈ (handleDisplayChart env cx px xml true).2) := by
  refine ⟨?_, ?_, ?_, ?_, ?_, ?_, ?_, ?_⟩
  · intro k hk
    by_cases he : env.extract xml = ""
    · rw [hdc_false_empty env cx px xml he] at hk
      simp at hk
    · rw [hdc_false_ne env cx px xml he] at hk
      by_cases hc : env.convert (env.extract xml) = px
      · rw [core_skip _ _ _ _ _ _ hc] at hk
        simp at hk
      · cases hp : env.parseOk
            ("<root>" ++ env.convert (env.extract xml) ++ "</root>")
        · rw [core_malformed _ _ _ _ _ _ hc hp] at hk
          simp at hk
        · cases hr : env.replace (if cx = "" then defaultBaseXml else cx)
              (env.convert (env.extract xml)) with
          | error err =>
              rw [core_replace_err _ _ _ _ _ _ err hc hp hr] at hk
              simp at hk
          | ok rep =>
              rw [core_preview_ok _ _ _ _ _ rep hc hp hr] at hk
              simp at hk
  · intro he
    exact hdc_false_empty env cx px xml he
  · intro he hc hp
    rw [hdc_false_ne env cx px xml he, core_malformed _ _ _ _ _ _ hc hp]
    refine ⟨rfl, fun y hy => ?_⟩
    simp at hy
  · intro err he hc hp hr
    rw [hdc_false_ne env cx px xml he, core_replace_err _ _ _ _ _ _ err hc hp hr]
    refine ⟨rfl, fun y hy => ?_⟩
    simp at hy
  · intro hc hp
    rw [hdc_true, core_malformed _ _ _ _ _ _ hc hp]
    simp
  · intro err hc hp hr
    rw [hdc_true, core_replace_err _ _ _ _ _ _ err hc hp hr]
    simp
  · intro rep err hc hp hr hvv
    rw [hdc_true, core_validate_err _ _ _ _ _ rep err hc hp hr hvv]
    simp
  · intro rep v hc hp hr hvv hval
    rw [hdc_true, core_final_invalid _ _ _ _ _ rep v hc hp hr hvv hval]
    simp

/-- Witness for `c7_error_visibility`: concrete runs exhibiting the three
visible error notices on the final path and the silence of the preview
path. -/
theorem c7_error_visibility_witness :
    (∀ k, Ev.toastError k ∉
        (handleDisplayChart envParseFail "c" "x" "y" false).2)
    ∧ (Ev.toastError "malformedXml"
        ∈ (handleDisplayChart envParseFail "c" "x" "y" true).2)
    ∧ (Ev.toastError "failedToProcess"
        ∈ (handleDisplayChart envReplaceThrow "c" "x" "y" true).2)
    ∧ (Ev.toastError "failedToProcess"
        ∈ (handleDisplayChart envValidateThrow "c" "x" "y" true).2)
    ∧ (Ev.toastError "validationFailed"
        ∈ (handleDisplayChart envReject "c" "x" "y" true).2) := by
  have hpf := c7_error_visibility envParseFail "c" "x" "y"
  have hrt := c7_error_visibility envReplaceThrow "c" "x" "y"
  have hvt := c7_error_visibility envValidateThrow "c" "x" "y"
  have hrj := c7_error_visibility envReject "c" "x" "y"
  refine ⟨hpf.1, ?_, ?_, ?_, ?_⟩
  · exact hpf.2.2.2.2.1 (by decide) rfl
  · exact hrt.2.2.2.2.2.1 "boom" (by decide) rfl rfl
  · exact hvt.2.2.2.2.2.2.1 ("c" ++ "y") "boom" (by decide) rfl rfl rfl
  · exact hrj.2.2.2.2.2.2.2 ("c" ++ "y") ⟨false, none⟩ (by decide) rfl rfl rfl
      rfl

end C7Theorems

section CoordHelpers

open DrawIo

/-- Setting a key makes it found. -/
lemma lookup_mset_self (m : List (String × String)) (k v : String) :
    (mset m k v).lookup k = some v := by
  simp [mset, List.lookup]

/-- Deleting a key does not affect other keys. -/
lemma lookup_merase_ne (m : List (String × String)) (k k' : String)
    (h : k' ≠ k) : (merase m k).lookup k' = m.lookup k' := by
  induction m with
  | nil => rfl
  | cons kv rest ih =>
      obtain ⟨k1, v1⟩ := kv
      by_cases hk : k1 = k
      · subst hk
        rw [show merase ((k1, v1) :: rest) k1 = merase rest k1 from by
          simp [merase]]
        rw [ih]
        simp only [List.lookup]
        rw [show (k' == k1) = false from by simp [h]]
      · rw [show merase ((k1, v1) :: rest) k = (k1, v1) :: merase rest k from by
          simp [merase, hk]]
        simp only [List.lookup]
        cases hbe : (k' == k1) <;> simp [ih]

/-- Setting a key does not affect other keys. -/
lemma lookup_mset_ne (m : List (String × String)) (k v k' : String)
    (h : k' ≠ k) : (mset m k v).lookup k' = m.lookup k' := by
  simp only [mset, List.lookup]
  rw [show (k' == k) = false by simp [h]]
  exact lookup_merase_ne m k k' h

/-- Setting an absent key preserves present bindings. -/
lemma lookup_mset_of_absent (m : List (String × String))
    (k v tid o : String) (h : m.lookup tid = some o)
    (hk : m.lookup k = none) : (mset m k v).lookup tid = some o := by
  have hne : tid ≠ k := by
    intro heq
    rw [heq, hk] at h
    cases h
  rw [lookup_mset_ne m k v tid hne]
  exact h

/-- The count of final-commit actions is additive over action-list concatenation. -/
lemma countFinal_append (tid : String) (a b : List Act) :
    countFinal tid (a ++ b) = countFinal tid a + countFinal tid b := by
  simp [countFinal, List.countP_append]

/-- Every coordinator step either leaves the processed set unchanged and
commits nothing, or pushes one previously unprocessed tool call and emits
exactly one final-commit action for it. -/
lemma step_processed_and_final (env : DisplayEnv) (s : CoordState)
    (i : SIn) (tid : String) :
    ((step env s i).1.processed = s.processed
        ∧ countFinal tid (step env s i).2 = 0)
    ∨ (∃ t, t ∉ s.processed
        ∧ (step env s i).1.processed = t :: s.processed
        ∧ countFinal tid (step env s i).2 = if t = tid then 1 else 0) := by
  cases i with
  | part chart p =>
      show ((stepPart chart s p).1.processed = s.processed
          ∧ countFinal tid (stepPart chart s p).2 = 0)
        ∨ (∃ t, t ∉ s.processed
            ∧ (stepPart chart s p).1.processed = t :: s.processed
            ∧ countFinal tid (stepPart chart s p).2
              = if t = tid then 1 else 0)
      unfold stepPart editRest
      repeat' split
      all_goals
        first
          | exact Or.inl ⟨rfl, by
              simp [countFinal, List.countP_cons, List.countP_nil]⟩
          | (refine Or.inr ⟨_, ?_, rfl, by
              simp [countFinal, List.countP_cons, List.countP_nil,
                beq_iff_eq]⟩
             simp_all)
  | fireDisplay =>
      show ((stepFireDisplay s).1.processed = s.processed
          ∧ countFinal tid (stepFireDisplay s).2 = 0)
        ∨ (∃ t, t ∉ s.processed
            ∧ (stepFireDisplay s).1.processed = t :: s.processed
            ∧ countFinal tid (stepFireDisplay s).2
              = if t = tid then 1 else 0)
      unfold stepFireDisplay
      repeat' split
      all_goals exact Or.inl ⟨rfl, by
        simp [countFinal, List.countP_cons, List.countP_nil]⟩
  | fireEdit =>
      show ((stepFireEdit env s).1.processed = s.processed
          ∧ countFinal tid (stepFireEdit env s).2 = 0)
        ∨ (∃ t, t ∉ s.processed
            ∧ (stepFireEdit env s).1.processed = t :: s.processed
            ∧ countFinal tid (stepFireEdit env s).2
              = if t = tid then 1 else 0)
      unfold stepFireEdit
      repeat' split
      all_goals exact Or.inl ⟨rfl, by
        simp [countFinal, List.countP_cons, List.countP_nil]⟩

/-- The four facts about one step needed for the at-most-once argument. -/
lemma step_final_spec (env : DisplayEnv) (s : CoordState) (i : SIn)
    (tid : String) :
    (tid ∈ s.processed → tid ∈ (step env s i).1.processed)
    ∧ (tid ∈ s.processed → countFinal tid (step env s i).2 = 0)
    ∧ countFinal tid (step env s i).2 ≤ 1
    ∧ (1 ≤ countFinal tid (step env s i).2 →
        tid ∈ (step env s i).1.processed) := by
  rcases step_processed_and_final env s i tid with ⟨hp, hc⟩ | ⟨t, hnot, hp, hc⟩
  · rw [hp, hc]
    exact ⟨fun h => h, fun _ => rfl, by omega, fun h => absurd h (by omega)⟩
  · rw [hp, hc]
    by_cases ht : t = tid
    · subst ht
      refine ⟨fun h => List.mem_cons_of_mem _ h,
        fun h => absurd h hnot, by simp, fun _ => List.mem_cons_self _ _⟩
    · refine ⟨fun h => List.mem_cons_of_mem _ h, fun _ => by simp [ht],
        by simp [ht], fun h => ?_⟩
      rw [if_neg ht] at h
      exact absurd h (by omega)

/-- Over any run, a tool call already processed commits nothing more, and
any tool call commits at most once. -/
lemma run_final_spec (env : DisplayEnv) (ins : List SIn) :
    ∀ (s : CoordState) (tid : String),
      (tid ∈ s.processed → countFinal tid (run env s ins).2 = 0)
      ∧ countFinal tid (run env s ins).2 ≤ 1 := by
  induction ins with
  | nil =>
      intro s tid
      exact ⟨fun _ => by simp [run, countFinal], by simp [run, countFinal]⟩
  | cons i rest ih =>
      intro s tid
      obtain ⟨m1, m2, m3, m4⟩ := step_final_spec env s i tid
      obtain ⟨r1, r2⟩ := ih (step env s i).1 tid
      have hsplit : (run env s (i :: rest)).2
          = (step env s i).2 ++ (run env (step env s i).1 rest).2 := rfl
      constructor
      · intro h
        rw [hsplit, countFinal_append, m2 h, r1 (m1 h)]
      · rw [hsplit, countFinal_append]
        by_cases hz : countFinal tid (step env s i).2 = 0
        · rw [hz]
          simpa using r2
        · have h1 : countFinal tid (step env s i).2 = 1 := by omega
          rw [h1, r1 (m4 (by omega))]

end CoordHelpers

section C2Theorems

open DrawIo

/-- Claim C2, as stated, is false on the code: after tool call `"t"` is
processed at `output-available` (and added to the processed set), a later
part with the same `toolCallId` in state `input-streaming` is NOT ignored
by the effect — it queues the XML and schedules a preview timer.  Only
the output-available branch checks `processedToolCalls`. -/
theorem c2_counterexample :
    "t" ∈ (stepPart "c" coordInit partOutDisplay).1.processed
    ∧ stepPart "c" (stepPart "c" coordInit partOutDisplay).1
        partStreamDisplay
      ≠ ((stepPart "c" coordInit partOutDisplay).1, ([] : List Act)) := by
  constructor <;> decide

/-- Claim C2 (amended): for every `toolCallId`, the final commit path runs
at most once over any sequence of coordinator inputs — once the id is in
the processed set no further final-commit action is ever emitted for it,
and a later `display_diagram` part in state `output-available` with a
processed id is ignored entirely.  (Parts in a streaming state with a
processed id may still drive the preview path.) -/
theorem c2_at_most_once (env : DisplayEnv) (s : CoordState) (ins : List SIn)
    (tid : String) :
    (tid ∈ s.processed → countFinal tid (run env s ins).2 = 0)
    ∧ countFinal tid (run env s ins).2 ≤ 1
    ∧ (∀ chart p, p.ptype = PartType.displayDiagram →
        p.pstate = PartState.outputAvailable →
        p.toolCallId ∈ s.processed →
        stepPart chart s p = (s, [])) := by
  refine ⟨(run_final_spec env ins s tid).1, (run_final_spec env ins s tid).2,
    ?_⟩
  intro chart p h1 h2 h3
  unfold stepPart
  rw [h1]
  cases hx : p.xml with
  | none => rfl
  | some x =>
      by_cases hxe : x = ""
      · simp [hxe]
      · by_cases hlast : s.lastXml.lookup p.toolCallId = some x
        · simp [hxe, hlast]
        · have hstream : ¬(p.pstate = PartState.inputStreaming
              ∨ p.pstate = PartState.inputAvailable) := by
            simp [h2]
          have hout : ¬(p.pstate = PartState.outputAvailable
              ∧ p.toolCallId ∉ s.processed) := by
            rintro ⟨-, hn⟩
            exact hn h3
          simp [hxe, hlast, hstream, hout]

/-- Witness for `c2_at_most_once`: a concrete two-input run (final then
re-delivered final) commits exactly once, and the re-delivered completed
part is ignored. -/
theorem c2_at_most_once_witness :
    (countFinal "t"
        (run envSample coordInit
          [SIn.part "c" partOutDisplay, SIn.part "c" partOutDisplay]).2 ≤ 1)
    ∧ stepPart "c" (stepPart "c" coordInit partOutDisplay).1 partOutDisplay
      = ((stepPart "c" coordInit partOutDisplay).1, []) := by
  have h := c2_at_most_once envSample coordInit
    [SIn.part "c" partOutDisplay, SIn.part "c" partOutDisplay] "t"
  have h2 := c2_at_most_once envSample
    (stepPart "c" coordInit partOutDisplay).1 [] "t"
  exact ⟨h.2.1, h2.2.2 "c" partOutDisplay rfl rfl (by decide)⟩

end C2Theorems

section C4Theorems

open DrawIo

/-- Claim C4: the preview coalescing scheduler keeps at most one pending
debounce timer — a new increment while a timer is pending only replaces
the pending payload (no second timer) — a timer is only scheduled (for the
fixed 150ms interval) when none is pending; the firing timer processes the
latest pending payload and clears both refs; and arrival of the complete
payload (state `output-available`) synchronously cancels the pending timer
and clears the pending payload before the final processing action.  The
last conjunct shows the supporting invariant: a pending payload implies a
pending timer, preserved by every step. -/
theorem c4_debounce (env : DisplayEnv) :
    (∀ chart s p x t0,
        p.ptype = PartType.displayDiagram → p.xml = some x → x ≠ "" →
        ¬(s.lastXml.lookup p.toolCallId = some x) →
        (p.pstate = PartState.inputStreaming
          ∨ p.pstate = PartState.inputAvailable) →
        s.displayTimer = some t0 →
        stepPart chart s p = ({ s with pendingXml := some x }, []))
    ∧ (∀ chart s p x,
        p.ptype = PartType.displayDiagram → p.xml = some x → x ≠ "" →
        ¬(s.lastXml.lookup p.toolCallId = some x) →
        (p.pstate = PartState.inputStreaming
          ∨ p.pstate = PartState.inputAvailable) →
        s.displayTimer = none →
        stepPart chart s p
          = ({ s with
                pendingXml := some x
                displayTimer := some p.toolCallId },
              [Act.schedDisplayTimer STREAMING_DEBOUNCE_MS])
          ∧ STREAMING_DEBOUNCE_MS = 150)
    ∧ (∀ s t0 x, s.displayTimer = some t0 → s.pendingXml = some x →
        stepFireDisplay s
          = ({ s with
                displayTimer := none
                pendingXml := none
                lastXml := mset s.lastXml t0 x },
              [Act.firePreview x]))
    ∧ (∀ chart s p x t0,
        p.ptype = PartType.displayDiagram → p.xml = some x → x ≠ "" →
        ¬(s.lastXml.lookup p.toolCallId = some x) →
        p.pstate = PartState.outputAvailable →
        p.toolCallId ∉ s.processed →
        s.displayTimer = some t0 →
        stepPart chart s p
          = ({ s with
                displayTimer := none
                pendingXml := none
                processed := p.toolCallId :: s.processed
                lastXml := merase s.lastXml p.toolCallId },
              [Act.cancelDisplayTimer, Act.finalDisplay p.toolCallId x]))
    ∧ (∀ s i, (s.pendingXml.isSome → s.displayTimer.isSome) →
        ((step env s i).1.pendingXml.isSome →
          (step env s i).1.displayTimer.isSome)) := by
  refine ⟨?_, ?_, ?_, ?_, ?_⟩
  · intro chart s p x t0 hpt hx hxe hlast hstream ht0
    have ht : ¬(s.displayTimer = none) := by simp [ht0]
    simp [stepPart, hpt, hx, hxe, hlast, hstream, ht]
  · intro chart s p x hpt hx hxe hlast hstream ht0
    refine ⟨?_, rfl⟩
    simp [stepPart, hpt, hx, hxe, hlast, hstream, ht0]
  · intro s t0 x ht0 hpx
    simp [stepFireDisplay, ht0, hpx]
  · intro chart s p x t0 hpt hx hxe hlast hst hnp ht0
    have hstream : ¬(p.pstate = PartState.inputStreaming
        ∨ p.pstate = PartState.inputAvailable) := by simp [hst]
    have ht : ¬(s.displayTimer = none) := by simp [ht0]
    simp [stepPart, hpt, hx, hxe, hlast, hstream, hst, hnp, ht]
  · intro s i hinv
    cases i with
    | part chart p =>
        show (stepPart chart s p).1.pendingXml.isSome →
          (stepPart chart s p).1.displayTimer.isSome
        unfold stepPart editRest
        repeat' split
        all_goals simp_all [Option.isSome_iff_ne_none]
    | fireDisplay =>
        show (stepFireDisplay s).1.pendingXml.isSome →
          (stepFireDisplay s).1.displayTimer.isSome
        unfold stepFireDisplay
        repeat' split
        all_goals simp_all
    | fireEdit =>
        show (stepFireEdit env s).1.pendingXml.isSome →
          (stepFireEdit env s).1.displayTimer.isSome
        unfold stepFireEdit
        repeat' split
        all_goals simp_all

/-- Witness for `c4_debounce` at concrete states: replacing a pending
payload without a second timer, scheduling the single 150ms timer, the
fire processing the latest payload, and the final-path cancellation. -/
theorem c4_debounce_witness :
    (stepPart "c" sTimerOnly partStreamDisplay
      = ({ sTimerOnly with pendingXml := some "y" }, []))
    ∧ (stepPart "c" coordInit partStreamDisplay
      = ({ coordInit with
            pendingXml := some "y"
            displayTimer := some "t" },
          [Act.schedDisplayTimer STREAMING_DEBOUNCE_MS]))
    ∧ (stepFireDisplay sTimerPend
      = ({ sTimerPend with
            displayTimer := none
            pendingXml := none
            lastXml := mset sTimerPend.lastXml "t" "y" },
          [Act.firePreview "y"]))
    ∧ (stepPart "c" sTimerPend partOutDisplay
      = ({ sTimerPend with
            displayTimer := none
            pendingXml := none
            processed := "t" :: sTimerPend.processed
            lastXml := merase sTimerPend.lastXml "t" },
          [Act.cancelDisplayTimer, Act.finalDisplay "t" "x"])) := by
  have h := c4_debounce envSample
  refine ⟨?_, ?_, ?_, ?_⟩
  · exact h.1 "c" sTimerOnly partStreamDisplay "y" "t" rfl rfl (by decide)
      (by decide) (Or.inl rfl) rfl
  · exact (h.2.1 "c" coordInit partStreamDisplay "y" rfl rfl (by decide)
      (by decide) (Or.inl rfl) rfl).1
  · exact h.2.2.1 sTimerPend "t" "y" rfl rfl
  · exact h.2.2.2.1 "c" sTimerPend partOutDisplay "x" "t" rfl rfl (by decide)
      (by decide) rfl (by decide) rfl

end C4Theorems

section C9Theorems

open DrawIo

/-- A captured original XML is never changed by any coordinator step: the
effect writes `editDiagramOriginalXmlRef` only for absent keys and never
deletes. -/
lemma step_origXml_stable (env : DisplayEnv) (s : CoordState) (i : SIn)
    (tid o : String) (h : s.origXml.lookup tid = some o) :
    (step env s i).1.origXml.lookup tid = some o := by
  cases i with
  | part chart p =>
      show (stepPart chart s p).1.origXml.lookup tid = some o
      unfold stepPart editRest
      repeat' split
      all_goals
        first
          | exact h
          | (simp only []
             exact lookup_mset_of_absent s.origXml p.toolCallId chart tid o
               h (by assumption))
  | fireDisplay =>
      show (stepFireDisplay s).1.origXml.lookup tid = some o
      unfold stepFireDisplay
      repeat' split
      all_goals exact h
  | fireEdit =>
      show (stepFireEdit env s).1.origXml.lookup tid = some o
      unfold stepFireEdit
      repeat' split
      all_goals exact h

/-- Every `editPreview` action emitted by a step previews exactly
`applyDiagramOperations` of the captured original XML of its tool call
with the pending operations. -/
lemma step_editPreview_spec (env : DisplayEnv) (s : CoordState) (i : SIn)
    (tid b ed : String) (ops : List RawOp)
    (hmem : Act.editPreview tid b ops ed ∈ (step env s i).2) :
    s.origXml.lookup tid = some b
    ∧ env.applyOps b ops = Except.ok ed
    ∧ s.pendingEdit = some (ops, tid) := by
  cases i with
  | part chart p =>
      exfalso
      revert hmem
      show Act.editPreview tid b ops ed ∈ (stepPart chart s p).2 → False
      unfold stepPart editRest
      repeat' split
      all_goals intro hmem
      all_goals simp_all
  | fireDisplay =>
      exfalso
      revert hmem
      show Act.editPreview tid b ops ed ∈ (stepFireDisplay s).2 → False
      unfold stepFireDisplay
      repeat' split
      all_goals intro hmem
      all_goals simp_all
  | fireEdit =>
      revert hmem
      show Act.editPreview tid b ops ed ∈ (stepFireEdit env s).2 →
        s.origXml.lookup tid = some b
        ∧ env.applyOps b ops = Except.ok ed
        ∧ s.pendingEdit = some (ops, tid)
      unfold stepFireEdit
      repeat' split
      all_goals intro hmem
      all_goals simp_all

/-- Over a run, a captured original XML stays fixed and every
`editPreview` for that tool call uses it as the base. -/
lemma run_editPreview_base (env : DisplayEnv) (ins : List SIn) :
    ∀ (s : CoordState) (tid o : String),
      s.origXml.lookup tid = some o →
      (run env s ins).1.origXml.lookup tid = some o
      ∧ (∀ b ops ed, Act.editPreview tid b ops ed ∈ (run env s ins).2 →
          b = o ∧ env.applyOps o ops = Except.ok ed) := by
  induction ins with
  | nil =>
      intro s tid o h
      refine ⟨h, fun b ops ed hmem => ?_⟩
      simp [run] at hmem
  | cons i rest ih =>
      intro s tid o h
      have hstable := step_origXml_stable env s i tid o h
      obtain ⟨ihs, ihm⟩ := ih (step env s i).1 tid o hstable
      have hsplit : (run env s (i :: rest)).2
          = (step env s i).2 ++ (run env (step env s i).1 rest).2 := rfl
      refine ⟨ihs, fun b ops ed hmem => ?_⟩
      rw [hsplit] at hmem
      rcases List.mem_append.mp hmem with hm | hm
      · obtain ⟨h1, h2, -⟩ := step_editPreview_spec env s i tid b ed ops hm
        rw [h] at h1
        cases h1
        exact ⟨rfl, h2⟩
      · exact ihm b ops ed hm

set_option maxHeartbeats 2000000 in
/-- Claim C9: every `edit_diagram` preview for a tool call is computed as
`applyDiagramOperations(originalXml, ops)` where `originalXml` is the
chart XML captured exactly once when streaming for that tool call began
(and never overwritten afterwards), and `ops` is the batch of complete
operations queued by the latest part; a preview's output is never the
base of a later preview. -/
theorem c9_preview_base (env : DisplayEnv) :
    (∀ s ins tid o, s.origXml.lookup tid = some o →
        (run env s ins).1.origXml.lookup tid = some o
        ∧ (∀ b ops ed,
            Act.editPreview tid b ops ed ∈ (run env s ins).2 →
            b = o ∧ env.applyOps o ops = Except.ok ed))
    ∧ (∀ chart s p tid, s.origXml.lookup tid = none →
        (stepPart chart s p).1.origXml.lookup tid ≠ none →
        tid = p.toolCallId
        ∧ (stepPart chart s p).1.origXml.lookup tid = some chart)
    ∧ (∀ s i, (step env s i).1.pendingEdit = s.pendingEdit
        ∨ (step env s i).1.pendingEdit = none
        ∨ (∃ chart p, i = SIn.part chart p
            ∧ (step env s i).1.pendingEdit
              = some (getCompleteOperations p.operations, p.toolCallId))) := by
  refine ⟨fun s ins tid o h => run_editPreview_base env ins s tid o h,
    ?_, ?_⟩
  · intro chart s p tid hnone hne
    have htid : tid = p.toolCallId := by
      by_contra hne'
      apply hne
      revert hne
      show (stepPart chart s p).1.origXml.lookup tid ≠ none → _
      unfold stepPart editRest
      repeat' split
      all_goals intro _
      all_goals
        first
          | exact hnone
          | (simp only []
             rw [lookup_mset_ne s.origXml p.toolCallId chart tid hne']
             exact hnone)
    subst htid
    refine ⟨rfl, ?_⟩
    revert hne
    unfold stepPart editRest
    repeat' split
    all_goals intro hne
    all_goals
      first
        | exact absurd hnone hne
        | (simp only []
           exact lookup_mset_self s.origXml p.toolCallId chart)
  · intro s i
    cases i with
    | part chart p =>
        show (stepPart chart s p).1.pendingEdit = s.pendingEdit
          ∨ (stepPart chart s p).1.pendingEdit = none
          ∨ (∃ chart' p', SIn.part chart p = SIn.part chart' p'
              ∧ (stepPart chart s p).1.pendingEdit
                = some (getCompleteOperations p'.operations, p'.toolCallId))
        unfold stepPart editRest
        repeat' split
        all_goals
          first
            | exact Or.inl rfl
            | (refine Or.inr (Or.inr ⟨chart, p, rfl, ?_⟩)
               simp_all [getCompleteOperations])
    | fireDisplay =>
        show (stepFireDisplay s).1.pendingEdit = s.pendingEdit
          ∨ (stepFireDisplay s).1.pendingEdit = none
          ∨ (∃ chart' p', SIn.fireDisplay = SIn.part chart' p'
              ∧ (stepFireDisplay s).1.pendingEdit
                = some (getCompleteOperations p'.operations, p'.toolCallId))
        unfold stepFireDisplay
        repeat' split
        all_goals exact Or.inl rfl
    | fireEdit =>
        show (stepFireEdit env s).1.pendingEdit = s.pendingEdit
          ∨ (stepFireEdit env s).1.pendingEdit = none
          ∨ (∃ chart' p', SIn.fireEdit = SIn.part chart' p'
              ∧ (stepFireEdit env s).1.pendingEdit
                = some (getCompleteOperations p'.operations, p'.toolCallId))
        unfold stepFireEdit
        repeat' split
        all_goals first | exact Or.inl rfl | exact Or.inr (Or.inl rfl)

/-- Witness for `c9_preview_base`: firing the edit timer on a state with
captured original `"base"` previews exactly the operation application on
`"base"`. -/
theorem c9_preview_base_witness :
    (Act.editPreview "t" "base" [sampleOp] "base"
        ∈ (run envSample sampleEditState [SIn.fireEdit]).2)
    ∧ envSample.applyOps "base" [sampleOp] = Except.ok "base" := by
  refine ⟨by decide, ?_⟩
  exact ((c9_preview_base envSample).1 sampleEditState [SIn.fireEdit]
    "t" "base" rfl).2 "base" [sampleOp] "base" (by decide) |>.2

end C9Theorems
